import Mathlib

/-!
# Verification of the JIRA analytics core (`jira_analytics.py`)

Shallow embedding of the analytics computations of `JiraAnalytics`:
the time-in-status engine (`calculate_time_in_status`), the open-duration
classifier (`calculate_open_duration`), the daily trend aggregation
(`generate_daily_task_trend`), the user-task ranking
(`generate_user_task_distribution`) and the priority distribution
(`generate_priority_distribution`).

Timestamps are modelled as rational numbers of seconds since the epoch
(`dateutil.parser.parse` yields timezone-aware datetimes; subtraction and
`total_seconds()` are exact arithmetic on them, modelled exactly by `ℚ`).
Durations in days are rationals: `(t2 - t1) / 86400`, mirroring
`.total_seconds() / (24 * 3600)`.

Python dicts are insertion-ordered maps with unique keys; they are modelled
by association lists updated in place (`addTime`, `bump`), which preserves
both the key set, the values and the insertion order.
-/

namespace JiraAnalytics

open scoped List

/-- A status-change event, as produced by `get_issue_transitions`:
one changelog item with `field == 'status'`.  `from_status` is
`item.get('fromString')`, which may be `None`. The `issue_key` and
`author` fields play no role in any computation and are omitted. -/
structure Transition where
  timestamp : ℚ
  from_status : Option String
  to_status : String
deriving DecidableEq

/-- An issue record, restricted to the fields the analytics read:
`fields.created`, `fields.updated`, `fields.status.name`,
`fields.assignee.displayName` (optional), `fields.reporter.displayName`
(optional), `fields.priority.name` (optional), together with the
transition list `get_issue_transitions` returns for the issue's key
(already sorted by the fetcher; the engine itself does not re-sort). -/
structure Issue where
  created : ℚ
  updated : ℚ
  status : String
  transitions : List Transition
  assignee : Option String := none
  reporter : Option String := none
  priority : Option String := none

/-- Substring test on character lists, the model of Python's
`needle in haystack` for strings. -/
def hasSubstr (needle : List Char) : List Char → Bool
  | [] => needle.isEmpty
  | c :: rest => needle.isPrefixOf (c :: rest) || hasSubstr needle rest

/-- Python's `s.lower()`, as a character list (each character lowered
individually; for the ASCII status names involved this is exact). -/
def lowered (s : String) : List Char :=
  s.toList.map Char.toLower

/-- `needle in haystack`: the needle string occurs in the haystack. -/
def strContains (needle : String) (haystack : List Char) : Bool :=
  hasSubstr needle.toList haystack

/-- The terminal-state predicate used at `jira_analytics.py:146`, `:212`,
`:297` and `:484`: the lowered status name contains `'closed'`,
`'resolved'` or `'done'`. -/
def isTerminal (status : String) : Bool :=
  strContains "closed" (lowered status) || strContains "resolved" (lowered status)
    || strContains "done" (lowered status)

/-- The `time_in_status` dict: status name to accumulated days. -/
abbrev StatusMap := List (String × ℚ)

/-- `if k not in m: m[k] = 0` followed by `m[k] += v` on a Python dict:
add `v` to the entry at `k`, appending a fresh entry when absent. -/
def addTime : StatusMap → String → ℚ → StatusMap
  | [], k, v => [(k, v)]
  | (k', v') :: rest, k, v =>
    if k' = k then (k', v' + v) :: rest else (k', v') :: addTime rest k v

/-- The running state of the loop at `jira_analytics.py:197-209`:
the map built so far, the `status_start_time` cursor and the
`current_status` tracker. -/
structure LoopState where
  map : StatusMap
  start : ℚ
  cur : String

/-- One iteration of the loop body (`jira_analytics.py:197-209`): if the
transition has a `from_status`, accumulate
`(transition_time - status_start_time) / (24*3600)` under it; then advance
the cursor to the transition's timestamp and the tracker to `to_status`. -/
def step (st : LoopState) (t : Transition) : LoopState :=
  let m := match t.from_status with
    | some fs => addTime st.map fs ((t.timestamp - st.start) / 86400)
    | none => st.map
  ⟨m, t.timestamp, t.to_status⟩

/-- `calculate_time_in_status` (`jira_analytics.py:174-219`).  Returns `{}`
when the transition list is empty; otherwise folds the loop body over the
transitions starting from `created` and the issue's fetched status, and,
when the tracked status after the last transition is terminal, accumulates
the final interval up to `updated`. -/
def calculate_time_in_status (i : Issue) : StatusMap :=
  if i.transitions.isEmpty then []
  else
    let st := i.transitions.foldl step ⟨[], i.created, i.status⟩
    if isTerminal st.cur then
      addTime st.map st.cur ((i.updated - st.start) / 86400)
    else
      st.map

/-- `calculate_open_duration` (`jira_analytics.py:131-155`): `None` unless
the lowered status name contains one of the three terminal keywords,
otherwise `(updated - created)` in days, with no further guard. -/
def calculate_open_duration (i : Issue) : Option ℚ :=
  let status_name := lowered i.status
  if !strContains "closed" status_name && !strContains "resolved" status_name
      && !strContains "done" status_name then
    none
  else
    some ((i.updated - i.created) / 86400)

/-- Sum of the values of a status map. -/
def mapSum : StatusMap → ℚ
  | [] => 0
  | (_, v) :: rest => v + mapSum rest

/-- `transitions` is sorted ascending by timestamp, starting no earlier
than the given instant. -/
def ascendingFrom : ℚ → List Transition → Prop
  | _, [] => True
  | s, t :: rest => s ≤ t.timestamp ∧ ascendingFrom t.timestamp rest

/-- The calendar date of a timestamp, as a day ordinal: the model of
`parser.parse(...).date()` for epoch-second timestamps. -/
def dateOf (t : ℚ) : ℤ :=
  ⌊t / 86400⌋

/-- The `created_dates` list of `generate_daily_task_trend`
(`jira_analytics.py:290-293`): the creation date of every issue, in input
order. -/
def createdDates (issues : List Issue) : List ℤ :=
  issues.map (fun i => dateOf i.created)

/-- The `closed_dates` list (`jira_analytics.py:295-299`): the
last-updated date of every issue whose status is terminal, in input
order. -/
def closedDates (issues : List Issue) : List ℤ :=
  (issues.filter (fun i => isTerminal i.status)).map (fun i => dateOf i.updated)

/-- `np.cumsum` on a list of daily counts, carrying the running total. -/
def cumsumFrom (acc : ℕ) : List ℕ → List ℕ
  | [] => []
  | x :: rest => (acc + x) :: cumsumFrom (acc + x) rest

/-- `np.cumsum` (`jira_analytics.py:317-318`). -/
def cumsum (l : List ℕ) : List ℕ :=
  cumsumFrom 0 l

/-- The numeric payload `generate_daily_task_trend` computes and plots:
the contiguous date range, the daily created/closed counts over it, and
their running cumulative sums. -/
structure TrendData where
  date_range : List ℤ
  created_counts : List ℕ
  closed_counts : List ℕ
  cumulative_created : List ℕ
  cumulative_closed : List ℕ

/-- The `all_dates` pool (`jira_analytics.py:306`): every observed date.
(Python builds a `set` and then takes `min`/`max`, which coincide with
the list minimum/maximum.) -/
def allDates (issues : List Issue) : List ℤ :=
  createdDates issues ++ closedDates issues

/-- The computation of `generate_daily_task_trend`
(`jira_analytics.py:280-318`), up to the plotting calls: `None` models the
early `return` when no dates were collected; otherwise
`pd.date_range(min, max, freq='D')` is the inclusive day range from the
earliest to the latest observed date, the daily counts are
`[dates.count(d) for d in date_range]`, and the cumulative series are
their running sums. -/
def generate_daily_task_trend (issues : List Issue) : Option TrendData :=
  if (createdDates issues).isEmpty && (closedDates issues).isEmpty then none
  else
    match (allDates issues).min?, (allDates issues).max? with
    | some lo, some hi =>
      let date_range := (List.range (hi - lo + 1).toNat).map (fun k : ℕ => lo + (k : ℤ))
      let created_counts := date_range.map (fun d => (createdDates issues).count d)
      let closed_counts := date_range.map (fun d => (closedDates issues).count d)
      some ⟨date_range, created_counts, closed_counts,
        cumsum created_counts, cumsum closed_counts⟩
    | _, _ => none

/-- `defaultdict(int)` increment `m[k] += 1` on an insertion-ordered
dict: bump the existing entry, or append a fresh entry with count 1. -/
def bump : List (String × ℕ) → String → List (String × ℕ)
  | [], k => [(k, 1)]
  | (k', c) :: rest, k =>
    if k' = k then (k', c + 1) :: rest else (k', c) :: bump rest k

/-- The `assignee_counts` dict of `generate_user_task_distribution`
(`jira_analytics.py:346-353`): per-assignee task counts, keys in
first-encounter order. -/
def assigneeCounts (issues : List Issue) : List (String × ℕ) :=
  issues.foldl (fun m i => match i.assignee with | some a => bump m a | none => m) []

/-- The `reporter_counts` dict (`jira_analytics.py:347-358`). -/
def reporterCounts (issues : List Issue) : List (String × ℕ) :=
  issues.foldl (fun m i => match i.reporter with | some r => bump m r | none => m) []

/-- The comparator of `sorted(..., key=lambda x: x[1], reverse=True)`:
descending by count.  Python's sort is stable, as is `List.mergeSort`,
and a stable sort under a fixed comparator is unique, so the two agree. -/
def byCountDesc (x y : String × ℕ) : Bool :=
  y.2 ≤ x.2

/-- The full descending ranking of assignees (`jira_analytics.py:361`
before the `[:top_n]` truncation). -/
def rankedAssignees (issues : List Issue) : List (String × ℕ) :=
  (assigneeCounts issues).mergeSort byCountDesc

/-- The full descending ranking of reporters (`jira_analytics.py:362`
before the `[:top_n]` truncation). -/
def rankedReporters (issues : List Issue) : List (String × ℕ) :=
  (reporterCounts issues).mergeSort byCountDesc

/-- The `top_assignees`/`top_reporters` pair of
`generate_user_task_distribution` (`jira_analytics.py:338-362`). -/
def generate_user_task_distribution (issues : List Issue) (top_n : ℕ) :
    List (String × ℕ) × List (String × ℕ) :=
  ((rankedAssignees issues).take top_n, (rankedReporters issues).take top_n)

/-- The `priority_counts` dict of `generate_priority_distribution`
(`jira_analytics.py:437-441`): `issue['fields'].get('priority', {}).get('name',
'Unknown')` resolves a missing priority to the literal `'Unknown'`, and
every issue bumps exactly one counter. -/
def generate_priority_distribution (issues : List Issue) : List (String × ℕ) :=
  issues.foldl (fun m i => bump m (i.priority.getD "Unknown")) []

/-- Dict lookup on a count dict, `m[k]` with default 0. -/
def countOf : List (String × ℕ) → String → ℕ
  | [], _ => 0
  | (k', c) :: rest, k => if k' = k then c else countOf rest k

/-- Total of all counts in a count dict. -/
def totalCount : List (String × ℕ) → ℕ
  | [] => 0
  | (_, c) :: rest => c + totalCount rest

/-! ## General lemmas about the time-in-status loop -/

lemma mapSum_addTime (m : StatusMap) (k : String) (v : ℚ) :
    mapSum (addTime m k v) = mapSum m + v := by
  induction m with
  | nil => simp [addTime, mapSum]
  | cons p rest ih =>
    obtain ⟨k', v'⟩ := p
    by_cases h : k' = k
    · simp only [addTime, if_pos h, mapSum]
      ring
    · simp only [addTime, if_neg h, mapSum, ih]
      ring

lemma foldl_step_cur (ts : List Transition) (st : LoopState) :
    (ts.foldl step st).cur = ((ts.getLast?).map Transition.to_status).getD st.cur := by
  induction ts generalizing st with
  | nil => simp
  | cons t rest ih =>
    rw [List.foldl_cons, ih]
    cases rest with
    | nil => simp [step]
    | cons r rs =>
      rw [List.getLast?_cons_cons, List.getLast?_eq_getLast (r :: rs) (by simp)]
      simp

lemma foldl_step_start (ts : List Transition) (st : LoopState) :
    (ts.foldl step st).start = ((ts.getLast?).map Transition.timestamp).getD st.start := by
  induction ts generalizing st with
  | nil => simp
  | cons t rest ih =>
    rw [List.foldl_cons, ih]
    cases rest with
    | nil => simp [step]
    | cons r rs =>
      rw [List.getLast?_cons_cons, List.getLast?_eq_getLast (r :: rs) (by simp)]
      simp

lemma foldl_step_mapSum_all_some (ts : List Transition) (st : LoopState)
    (h : ∀ t ∈ ts, t.from_status ≠ none) :
    mapSum (ts.foldl step st).map
      = mapSum st.map + ((ts.foldl step st).start - st.start) / 86400 := by
  induction ts generalizing st with
  | nil => simp
  | cons t rest ih =>
    obtain ⟨fs, hfs⟩ := Option.ne_none_iff_exists'.mp (h t (by simp))
    rw [List.foldl_cons, ih (step st t) (fun u hu => h u (by simp [hu]))]
    simp only [step, hfs]
    rw [mapSum_addTime]
    ring

lemma foldl_step_mapSum_le (ts : List Transition) (st : LoopState)
    (h : ascendingFrom st.start ts) :
    mapSum (ts.foldl step st).map
      ≤ mapSum st.map + ((ts.foldl step st).start - st.start) / 86400
    ∧ st.start ≤ (ts.foldl step st).start := by
  induction ts generalizing st with
  | nil => simp
  | cons t rest ih =>
    obtain ⟨h1, h2⟩ := h
    obtain ⟨ihle, ihstart⟩ := ih (step st t) h2
    have hstart : (step st t).start = t.timestamp := rfl
    rw [List.foldl_cons]
    cases hfs : t.from_status with
    | some fs =>
      have hmap : mapSum (step st t).map = mapSum st.map + (t.timestamp - st.start) / 86400 := by
        simp only [step, hfs]
        rw [mapSum_addTime]
      rw [hmap, hstart] at ihle
      rw [hstart] at ihstart
      constructor
      · calc mapSum ((rest.foldl step (step st t)).map)
            ≤ mapSum st.map + (t.timestamp - st.start) / 86400
              + ((rest.foldl step (step st t)).start - t.timestamp) / 86400 := ihle
          _ = mapSum st.map + ((rest.foldl step (step st t)).start - st.start) / 86400 := by ring
      · linarith
    | none =>
      have hmap : mapSum (step st t).map = mapSum st.map := by
        simp only [step, hfs]
      rw [hmap, hstart] at ihle
      rw [hstart] at ihstart
      constructor
      · have hmono : ((rest.foldl step (step st t)).start - t.timestamp) / 86400
            ≤ ((rest.foldl step (step st t)).start - st.start) / 86400 := by
          apply div_le_div_of_nonneg_right ?_ (by norm_num)
          · linarith
        linarith
      · linarith

lemma calc_eq_of_terminal (i : Issue) (h : i.transitions ≠ [])
    (hterm : isTerminal ((i.transitions.foldl step ⟨[], i.created, i.status⟩).cur) = true) :
    calculate_time_in_status i
      = addTime (i.transitions.foldl step ⟨[], i.created, i.status⟩).map
          (i.transitions.foldl step ⟨[], i.created, i.status⟩).cur
          ((i.updated - (i.transitions.foldl step ⟨[], i.created, i.status⟩).start) / 86400) := by
  unfold calculate_time_in_status
  rw [if_neg (by simp [h]), if_pos hterm]

lemma calc_eq_of_nonterminal (i : Issue) (h : i.transitions ≠ [])
    (hterm : isTerminal ((i.transitions.foldl step ⟨[], i.created, i.status⟩).cur) = false) :
    calculate_time_in_status i
      = (i.transitions.foldl step ⟨[], i.created, i.status⟩).map := by
  unfold calculate_time_in_status
  rw [if_neg (by simp [h]), if_neg (by simp [hterm])]

lemma open_duration_ite (i : Issue) :
    calculate_open_duration i
      = if isTerminal i.status then some ((i.updated - i.created) / 86400) else none := by
  unfold calculate_open_duration isTerminal
  cases h1 : strContains "closed" (lowered i.status) <;>
    cases h2 : strContains "resolved" (lowered i.status) <;>
      cases h3 : strContains "done" (lowered i.status) <;>
        simp [h1, h2, h3]

/-! ## Concrete example issues -/

/-- A terminal issue with one day of lifetime and no recorded
transitions. -/
def emptyTransitionsIssue : Issue :=
  { created := 0, updated := 86400, status := "Done", transitions := [] }

/-- An issue whose single transition is time-stamped five days before its
creation timestamp (out-of-order data). -/
def backdatedIssue : Issue :=
  { created := 864000, updated := 1036800, status := "Done",
    transitions := [⟨432000, some "Open", "Done"⟩] }

/-- The concrete scenario of the spec: created 2024-01-01T00:00:00Z,
Open→In Progress at 2024-01-03T00:00:00Z, In Progress→Done at
2024-01-10T00:00:00Z, status Done, updated 2024-01-10T00:00:00Z
(epoch seconds). -/
def scenarioIssue : Issue :=
  { created := 1704067200, updated := 1704844800, status := "Done",
    transitions := [⟨1704240000, some "Open", "In Progress"⟩,
      ⟨1704844800, some "In Progress", "Done"⟩] }

/-- A non-terminal issue whose single transition is time-stamped exactly
at `updated_at`. -/
def boundaryOpenIssue : Issue :=
  { created := 0, updated := 86400, status := "In Progress",
    transitions := [⟨86400, some "Open", "In Progress"⟩] }

/-- A non-terminal issue whose single transition falls strictly between
`created_at` and `updated_at`. -/
def strictOpenIssue : Issue :=
  { created := 0, updated := 172800, status := "In Progress",
    transitions := [⟨86400, some "Open", "In Progress"⟩] }

/-- A terminal issue whose `updated_at` precedes its `created_at`. -/
def negIssue : Issue :=
  { created := 86400, updated := 0, status := "Closed", transitions := [] }

/-! ## C1 -/

/-- C1 counterexample: for `emptyTransitionsIssue` — empty transition
list, terminal status `"Done"`, one day of lifetime —
`calculate_time_in_status` returns the empty map, not the single-entry
map `{"Done": 1.0}` the claim requires. -/
theorem c1_counterexample :
    calculate_time_in_status emptyTransitionsIssue = []
    ∧ isTerminal emptyTransitionsIssue.status = true
    ∧ ([] : StatusMap) ≠ [("Done", (1 : ℚ))] := by
  refine ⟨?_, by decide, by simp⟩
  norm_num [calculate_time_in_status, emptyTransitionsIssue]

/-- C1 amended: for every issue with an empty transition list —
whatever its status and boundary timestamps — `calculate_time_in_status`
returns the empty map (the function returns `{}` early and never
produces the single-entry lifetime map). -/
theorem c1_empty_transitions (i : Issue) (h : i.transitions = []) :
    calculate_time_in_status i = [] := by
  unfold calculate_time_in_status
  rw [h]
  rfl

/-- C1 witness: the amended theorem applied to `emptyTransitionsIssue`. -/
theorem c1_empty_transitions_witness :
    emptyTransitionsIssue.transitions = []
    ∧ calculate_time_in_status emptyTransitionsIssue = [] :=
  ⟨rfl, c1_empty_transitions emptyTransitionsIssue rfl⟩

/-! ## C2 -/

/-- C2: on `backdatedIssue`, whose transition timestamp precedes the
`status_start_time` cursor (the creation time), the engine accumulates
the negative interval `-5.0` days under `"Open"`: the returned map
contains a negative value, contradicting the out-of-order guard the
specification requires. -/
theorem c2_negative_duration :
    calculate_time_in_status backdatedIssue = [("Open", -5), ("Done", 7)]
    ∧ ((-5 : ℚ) < 0) := by
  refine ⟨?_, by norm_num⟩
  have h : isTerminal "Done" = true := by decide
  norm_num [calculate_time_in_status, backdatedIssue, List.foldl, step, addTime, h]
  simp

/-! ## C3 -/

/-- C3: for a terminal issue with a non-empty ascending transition list
in which only the first transition may lack a `from_status`, the sum of
the returned map's values is `(updated - created)` in days, minus the
dropped initial interval when the first `from_status` is null. -/
theorem c3_sum_invariant (i : Issue) (t : Transition) (rest : List Transition)
    (hts : i.transitions = t :: rest)
    (hsorted : ascendingFrom i.created i.transitions)
    (htail : ∀ u ∈ rest, u.from_status ≠ none)
    (hterm : isTerminal (((t :: rest).getLast (List.cons_ne_nil t rest)).to_status) = true) :
    mapSum (calculate_time_in_status i) =
      match t.from_status with
      | some _ => (i.updated - i.created) / 86400
      | none => (i.updated - i.created) / 86400 - (t.timestamp - i.created) / 86400 := by
  have hne : i.transitions ≠ [] := by rw [hts]; exact List.cons_ne_nil t rest
  have hcur : (i.transitions.foldl step ⟨[], i.created, i.status⟩).cur
      = ((t :: rest).getLast (List.cons_ne_nil t rest)).to_status := by
    rw [foldl_step_cur, hts, List.getLast?_eq_getLast _ (List.cons_ne_nil t rest)]
    rfl
  have hres := calc_eq_of_terminal i hne (by rw [hcur]; exact hterm)
  rw [hres, mapSum_addTime]
  cases hfs : t.from_status with
  | some fs =>
    have hall : ∀ u ∈ i.transitions, u.from_status ≠ none := by
      rw [hts]
      intro u hu
      rcases List.mem_cons.mp hu with h | h
      · rw [h, hfs]; simp
      · exact htail u h
    have hsum := foldl_step_mapSum_all_some i.transitions ⟨[], i.created, i.status⟩ hall
    simp only [mapSum] at hsum
    rw [hsum]
    ring
  | none =>
    have hsplit : i.transitions.foldl step ⟨[], i.created, i.status⟩
        = rest.foldl step ⟨[], t.timestamp, t.to_status⟩ := by
      rw [hts, List.foldl_cons]
      congr 1
      simp [step, hfs]
    have hsum := foldl_step_mapSum_all_some rest ⟨[], t.timestamp, t.to_status⟩ htail
    simp only [mapSum] at hsum
    rw [hsplit, hsum]
    ring

/-- C3 witness: the sum invariant evaluated on the concrete scenario
issue, whose first transition has a non-null `from_status`. -/
theorem c3_sum_invariant_witness :
    ascendingFrom scenarioIssue.created scenarioIssue.transitions
    ∧ mapSum (calculate_time_in_status scenarioIssue)
        = (scenarioIssue.updated - scenarioIssue.created) / 86400 :=
  ⟨by norm_num [ascendingFrom, scenarioIssue],
    c3_sum_invariant scenarioIssue ⟨1704240000, some "Open", "In Progress"⟩
      [⟨1704844800, some "In Progress", "Done"⟩] rfl
      (by norm_num [ascendingFrom, scenarioIssue])
      (by intro u hu; simp only [List.mem_singleton] at hu; subst hu; simp)
      (by decide)⟩

/-! ## C4 -/

/-- C4 counterexample: on the concrete scenario the engine returns a map
that also contains the entry `"Done" ↦ 0.0` (the closing transition
coincides with `updated_at`), so the result is not exactly
`{"Open": 2.0, "In Progress": 7.0}`. -/
theorem c4_counterexample :
    calculate_time_in_status scenarioIssue
      = [("Open", 2), ("In Progress", 7), ("Done", 0)]
    ∧ ("Done", (0 : ℚ)) ∈ calculate_time_in_status scenarioIssue
    ∧ calculate_time_in_status scenarioIssue ≠ [("Open", 2), ("In Progress", 7)] := by
  have h : isTerminal "Done" = true := by decide
  have hmap : calculate_time_in_status scenarioIssue
      = [("Open", 2), ("In Progress", 7), ("Done", 0)] := by
    norm_num [calculate_time_in_status, scenarioIssue, List.foldl, step, addTime, h]
    simp
  refine ⟨hmap, by rw [hmap]; simp, by rw [hmap]; simp⟩

/-- C4 amended: on the concrete scenario `calculate_time_in_status`
returns exactly `{"Open": 2.0, "In Progress": 7.0, "Done": 0.0}` — the
two claimed entries plus a zero-duration entry for the terminal
status. -/
theorem c4_scenario :
    calculate_time_in_status scenarioIssue
      = [("Open", 2), ("In Progress", 7), ("Done", 0)] := by
  have h : isTerminal "Done" = true := by decide
  norm_num [calculate_time_in_status, scenarioIssue, List.foldl, step, addTime, h]
  simp

/-! ## C5 -/

/-- C5 counterexample: `boundaryOpenIssue` is non-terminal after its last
transition and has a non-empty transition list, yet the sum of its map
equals `(updated - created)` in days exactly — not strictly less — because
the transition is time-stamped exactly at `updated_at`. -/
theorem c5_counterexample :
    isTerminal "In Progress" = false
    ∧ calculate_time_in_status boundaryOpenIssue = [("Open", 1)]
    ∧ ¬ mapSum (calculate_time_in_status boundaryOpenIssue)
        < (boundaryOpenIssue.updated - boundaryOpenIssue.created) / 86400 := by
  have h : isTerminal "In Progress" = false := by decide
  have hmap : calculate_time_in_status boundaryOpenIssue = [("Open", 1)] := by
    norm_num [calculate_time_in_status, boundaryOpenIssue, List.foldl, step, addTime, h]
  refine ⟨h, hmap, ?_⟩
  rw [hmap]
  norm_num [mapSum, boundaryOpenIssue]

/-- C5 amended: for a non-terminal issue with a non-empty ascending
transition list lying within `[created, updated]`, the final open-ended
interval is never added (the result is exactly the loop's map), the sum
of the map's values is at most `(updated - created)` in days, and it is
strictly less whenever the last transition's timestamp is strictly
before `updated_at`. -/
theorem c5_no_final_interval (i : Issue) (t : Transition) (rest : List Transition)
    (hts : i.transitions = t :: rest)
    (hsorted : ascendingFrom i.created i.transitions)
    (hlast : ((t :: rest).getLast (List.cons_ne_nil t rest)).timestamp ≤ i.updated)
    (hterm : isTerminal (((t :: rest).getLast (List.cons_ne_nil t rest)).to_status) = false) :
    calculate_time_in_status i = (i.transitions.foldl step ⟨[], i.created, i.status⟩).map
    ∧ mapSum (calculate_time_in_status i) ≤ (i.updated - i.created) / 86400
    ∧ (((t :: rest).getLast (List.cons_ne_nil t rest)).timestamp < i.updated →
        mapSum (calculate_time_in_status i) < (i.updated - i.created) / 86400) := by
  have hne : i.transitions ≠ [] := by rw [hts]; exact List.cons_ne_nil t rest
  have hcur : (i.transitions.foldl step ⟨[], i.created, i.status⟩).cur
      = ((t :: rest).getLast (List.cons_ne_nil t rest)).to_status := by
    rw [foldl_step_cur, hts, List.getLast?_eq_getLast _ (List.cons_ne_nil t rest)]
    rfl
  have hres := calc_eq_of_nonterminal i hne (by rw [hcur]; exact hterm)
  have hstart : (i.transitions.foldl step ⟨[], i.created, i.status⟩).start
      = ((t :: rest).getLast (List.cons_ne_nil t rest)).timestamp := by
    rw [foldl_step_start, hts, List.getLast?_eq_getLast _ (List.cons_ne_nil t rest)]
    rfl
  obtain ⟨hle, -⟩ := foldl_step_mapSum_le i.transitions ⟨[], i.created, i.status⟩ hsorted
  simp only [mapSum] at hle
  rw [hstart] at hle
  set S := ((t :: rest).getLast (List.cons_ne_nil t rest)).timestamp with hS
  have hdiv : (S - i.created) / 86400 ≤ (i.updated - i.created) / 86400 := by
    apply div_le_div_of_nonneg_right ?_ (by norm_num)
    · linarith
  refine ⟨hres, ?_, ?_⟩
  · rw [hres]
    linarith
  · intro hstrict
    have hdiv' : (S - i.created) / 86400 < (i.updated - i.created) / 86400 := by
      apply div_lt_div_of_pos_right ?_ (by norm_num)
      · linarith
    rw [hres]
    linarith

/-- C5 witness: the amended theorem applied to `strictOpenIssue`, whose
last transition is strictly before `updated_at`, giving a strict
inequality. -/
theorem c5_no_final_interval_witness :
    ascendingFrom strictOpenIssue.created strictOpenIssue.transitions
    ∧ calculate_time_in_status strictOpenIssue
        = (strictOpenIssue.transitions.foldl step
            ⟨[], strictOpenIssue.created, strictOpenIssue.status⟩).map
    ∧ mapSum (calculate_time_in_status strictOpenIssue)
        ≤ (strictOpenIssue.updated - strictOpenIssue.created) / 86400 :=
  ⟨by norm_num [ascendingFrom, strictOpenIssue],
    (c5_no_final_interval strictOpenIssue ⟨86400, some "Open", "In Progress"⟩ [] rfl
      (by norm_num [ascendingFrom, strictOpenIssue])
      (by norm_num [strictOpenIssue])
      (by decide)).1,
    ((c5_no_final_interval strictOpenIssue ⟨86400, some "Open", "In Progress"⟩ [] rfl
      (by norm_num [ascendingFrom, strictOpenIssue])
      (by norm_num [strictOpenIssue])
      (by decide)).2).1⟩

/-! ## C6 -/

/-- C6: `calculate_open_duration` returns `(updated - created)` in days
exactly when the lowered status name contains one of the keywords
`closed`, `resolved`, `done`, and the `None` sentinel otherwise. -/
theorem c6_open_duration_classifier (i : Issue) :
    calculate_open_duration i
      = if ["closed", "resolved", "done"].any (fun kw => strContains kw (lowered i.status))
        then some ((i.updated - i.created) / 86400)
        else none := by
  have hcond : (["closed", "resolved", "done"].any (fun kw => strContains kw (lowered i.status)))
      = isTerminal i.status := by
    simp [isTerminal, Bool.or_assoc]
  rw [hcond, open_duration_ite]

/-! ## C10 -/

/-- C10: when the status is terminal, `calculate_open_duration` returns
exactly `(updated - created)/86400` days with no lower bound; in
particular the result is negative whenever `updated` precedes
`created`. -/
theorem c10_negative_possible (i : Issue) (hterm : isTerminal i.status = true)
    (hlt : i.updated < i.created) :
    calculate_open_duration i = some ((i.updated - i.created) / 86400)
    ∧ (i.updated - i.created) / 86400 < 0 := by
  refine ⟨?_, ?_⟩
  · rw [open_duration_ite, if_pos hterm]
  · apply div_neg_of_neg_of_pos ?_ (by norm_num)
    · linarith

/-- C10 witness: `negIssue` has terminal status `"Closed"` and
`updated < created`, and the classifier returns the negative duration. -/
theorem c10_negative_possible_witness :
    isTerminal negIssue.status = true
    ∧ negIssue.updated < negIssue.created
    ∧ (calculate_open_duration negIssue
        = some ((negIssue.updated - negIssue.created) / 86400)
      ∧ (negIssue.updated - negIssue.created) / 86400 < 0) :=
  ⟨by decide, by norm_num [negIssue],
    c10_negative_possible negIssue (by decide) (by norm_num [negIssue])⟩

/-! ## C7 -/

instance : Std.Antisymm ((· : ℤ) ≤ ·) :=
  ⟨@fun _ _ h1 h2 => le_antisymm h1 h2⟩

lemma cumsumFrom_head_ge (l : List ℕ) (acc : ℕ) :
    ∀ y ∈ (cumsumFrom acc l).head?, acc ≤ y := by
  cases l with
  | nil => simp [cumsumFrom]
  | cons x rest =>
    intro y hy
    simp [cumsumFrom] at hy
    omega

lemma cumsumFrom_chain (l : List ℕ) (acc : ℕ) :
    List.Chain' (· ≤ ·) (cumsumFrom acc l) := by
  induction l generalizing acc with
  | nil => simp [cumsumFrom]
  | cons x rest ih =>
    rw [cumsumFrom, List.chain'_cons']
    exact ⟨cumsumFrom_head_ge rest (acc + x), ih (acc + x)⟩

/-- C7: over any non-empty issue set, the trend computation succeeds,
its date range is exactly the contiguous interval from the earliest to
the latest observed date (every intermediate date present), every
observed date lies in the range, the count series are the per-date event
counts over that range (zero where no events fall), and both cumulative
series are non-decreasing. -/
theorem c7_daily_trend (issues : List Issue) (h : issues ≠ []) :
    ∃ lo hi td, (allDates issues).min? = some lo
    ∧ (allDates issues).max? = some hi
    ∧ generate_daily_task_trend issues = some td
    ∧ (∀ x : ℤ, x ∈ td.date_range ↔ lo ≤ x ∧ x ≤ hi)
    ∧ (∀ d ∈ allDates issues, d ∈ td.date_range)
    ∧ td.created_counts = td.date_range.map (fun d => (createdDates issues).count d)
    ∧ td.closed_counts = td.date_range.map (fun d => (closedDates issues).count d)
    ∧ td.cumulative_created = cumsum td.created_counts
    ∧ td.cumulative_closed = cumsum td.closed_counts
    ∧ List.Chain' (· ≤ ·) td.cumulative_created
    ∧ List.Chain' (· ≤ ·) td.cumulative_closed := by
  have hcd : createdDates issues ≠ [] := by
    unfold createdDates
    simp [h]
  have hall : allDates issues ≠ [] := by
    unfold allDates
    simp [hcd]
  obtain ⟨lo, hmin⟩ : ∃ lo, (allDates issues).min? = some lo := by
    cases hm : (allDates issues).min? with
    | none => exact absurd (List.min?_eq_none_iff.mp hm) hall
    | some lo => exact ⟨lo, rfl⟩
  obtain ⟨hi, hmax⟩ : ∃ hi, (allDates issues).max? = some hi := by
    cases hm : (allDates issues).max? with
    | none => exact absurd (List.max?_eq_none_iff.mp hm) hall
    | some hi => exact ⟨hi, rfl⟩
  obtain ⟨hlomem, hlole⟩ := (List.min?_eq_some_iff (fun a => le_refl a)
    (fun a b => min_choice a b) (fun _ _ _ => le_min_iff)).mp hmin
  obtain ⟨hhimem, hhile⟩ := (List.max?_eq_some_iff (fun a => le_refl a)
    (fun a b => max_choice a b) (fun _ _ _ => max_le_iff)).mp hmax
  have hlohi : lo ≤ hi := hhile lo hlomem
  have hgen : generate_daily_task_trend issues
      = some ⟨(List.range (hi - lo + 1).toNat).map (fun k : ℕ => lo + (k : ℤ)),
          ((List.range (hi - lo + 1).toNat).map (fun k : ℕ => lo + (k : ℤ))).map
            (fun d => (createdDates issues).count d),
          ((List.range (hi - lo + 1).toNat).map (fun k : ℕ => lo + (k : ℤ))).map
            (fun d => (closedDates issues).count d),
          cumsum (((List.range (hi - lo + 1).toNat).map (fun k : ℕ => lo + (k : ℤ))).map
            (fun d => (createdDates issues).count d)),
          cumsum (((List.range (hi - lo + 1).toNat).map (fun k : ℕ => lo + (k : ℤ))).map
            (fun d => (closedDates issues).count d))⟩ := by
    unfold generate_daily_task_trend
    rw [if_neg (by simp [hcd]), hmin, hmax]
  have hmem : ∀ x : ℤ, x ∈ (List.range (hi - lo + 1).toNat).map (fun k : ℕ => lo + (k : ℤ))
      ↔ lo ≤ x ∧ x ≤ hi := by
    intro x
    simp only [List.mem_map, List.mem_range]
    constructor
    · rintro ⟨k, hk, rfl⟩
      omega
    · rintro ⟨h1, h2⟩
      exact ⟨(x - lo).toNat, by omega, by omega⟩
  refine ⟨lo, hi, _, hmin, hmax, hgen, hmem, ?_, rfl, rfl, rfl, rfl, ?_, ?_⟩
  · intro d hd
    exact (hmem d).mpr ⟨hlole d hd, hhile d hd⟩
  · exact cumsumFrom_chain _ 0
  · exact cumsumFrom_chain _ 0

/-- A single terminal issue used to instantiate the trend theorem:
created on day 0, last updated on day 2. -/
def trendIssue : Issue :=
  { created := 0, updated := 172800, status := "Done", transitions := [] }

/-- C7 witness: the trend theorem applied to the one-element issue set
`[trendIssue]`. -/
theorem c7_daily_trend_witness :
    ([trendIssue] : List Issue) ≠ []
    ∧ (∃ lo hi td, (allDates [trendIssue]).min? = some lo
      ∧ (allDates [trendIssue]).max? = some hi
      ∧ generate_daily_task_trend [trendIssue] = some td
      ∧ (∀ x : ℤ, x ∈ td.date_range ↔ lo ≤ x ∧ x ≤ hi)
      ∧ (∀ d ∈ allDates [trendIssue], d ∈ td.date_range)
      ∧ td.created_counts = td.date_range.map (fun d => (createdDates [trendIssue]).count d)
      ∧ td.closed_counts = td.date_range.map (fun d => (closedDates [trendIssue]).count d)
      ∧ td.cumulative_created = cumsum td.created_counts
      ∧ td.cumulative_closed = cumsum td.closed_counts
      ∧ List.Chain' (· ≤ ·) td.cumulative_created
      ∧ List.Chain' (· ≤ ·) td.cumulative_closed) :=
  ⟨by simp, c7_daily_trend [trendIssue] (by simp)⟩

/-! ## C8 -/

lemma byCountDesc_trans (a b c : String × ℕ) (h1 : byCountDesc a b = true)
    (h2 : byCountDesc b c = true) : byCountDesc a c = true := by
  simp only [byCountDesc, decide_eq_true_eq] at *
  omega

lemma byCountDesc_total (a b : String × ℕ) :
    (byCountDesc a b || byCountDesc b a) = true := by
  simp only [byCountDesc, Bool.or_eq_true, decide_eq_true_eq]
  omega

lemma bump_keys (m : List (String × ℕ)) (k : String) :
    (bump m k).map Prod.fst
      = if k ∈ m.map Prod.fst then m.map Prod.fst else m.map Prod.fst ++ [k] := by
  induction m with
  | nil => simp [bump]
  | cons p rest ih =>
    obtain ⟨k', c⟩ := p
    by_cases h : k' = k
    · simp [bump, h]
    · by_cases h2 : k ∈ rest.map Prod.fst
      · simp [bump, h, ih, h2, Ne.symm h]
      · simp [bump, h, ih, h2, Ne.symm h]

lemma bump_keys_nodup (m : List (String × ℕ)) (k : String)
    (h : (m.map Prod.fst).Nodup) : ((bump m k).map Prod.fst).Nodup := by
  rw [bump_keys]
  by_cases h2 : k ∈ m.map Prod.fst
  · simpa [h2] using h
  · simp [h2, List.nodup_append, h]

lemma foldl_bump_keys_nodup (g : Issue → Option String) (issues : List Issue)
    (m : List (String × ℕ)) (hm : (m.map Prod.fst).Nodup) :
    (((issues.foldl (fun m i => match g i with | some a => bump m a | none => m) m)).map
      Prod.fst).Nodup := by
  induction issues generalizing m with
  | nil => exact hm
  | cons i rest ih =>
    rw [List.foldl_cons]
    cases hg : g i with
    | some a =>
      simp only [hg]
      exact ih (bump m a) (bump_keys_nodup m a hm)
    | none =>
      simp only [hg]
      exact ih m hm

lemma pair_sublist_take {α : Type} {a b : α} :
    ∀ (l : List α) (n : ℕ), l.Nodup → [a, b] <+ l → b ∈ l.take n → [a, b] <+ l.take n := by
  intro l
  induction l with
  | nil =>
    intro n _ _ hb
    simp at hb
  | cons x xs ih =>
    intro n hnd hab hb
    cases n with
    | zero => simp at hb
    | succ m =>
      rw [List.take_succ_cons] at hb ⊢
      rcases List.mem_cons.mp hb with hbx | hbm
      · cases hab with
        | cons _ h' =>
          have hbxs : b ∈ xs := h'.subset (by simp)
          exact absurd (hbx ▸ hbxs) (List.nodup_cons.mp hnd).1
        | cons₂ _ h' =>
          have hbxs : b ∈ xs := List.singleton_sublist.mp h'
          exact absurd (hbx ▸ hbxs) (List.nodup_cons.mp hnd).1
      · cases hab with
        | cons _ h' => exact List.Sublist.cons _ (ih m (List.nodup_cons.mp hnd).2 h' hbm)
        | cons₂ _ h' => exact List.Sublist.cons₂ _ (List.singleton_sublist.mpr hbm)

lemma stable_rank (l : List (String × ℕ)) (u1 u2 : String) (c : ℕ)
    (hnd : (l.map Prod.fst).Nodup) (h : [(u1, c), (u2, c)] <+ l) :
    [(u1, c), (u2, c)] <+ l.mergeSort byCountDesc
    ∧ ∀ n, (u2, c) ∈ (l.mergeSort byCountDesc).take n →
        [(u1, c), (u2, c)] <+ (l.mergeSort byCountDesc).take n := by
  have hsub : [(u1, c), (u2, c)] <+ l.mergeSort byCountDesc :=
    List.pair_sublist_mergeSort byCountDesc_trans byCountDesc_total
      (by simp [byCountDesc]) h
  have hnd' : (l.mergeSort byCountDesc).Nodup :=
    ((List.mergeSort_perm l byCountDesc).nodup_iff).mpr (hnd.of_map)
  exact ⟨hsub, fun n hn => pair_sublist_take _ n hnd' hsub hn⟩

lemma assigneeCounts_keys_nodup (issues : List Issue) :
    ((assigneeCounts issues).map Prod.fst).Nodup :=
  foldl_bump_keys_nodup Issue.assignee issues [] (by simp)

lemma reporterCounts_keys_nodup (issues : List Issue) :
    ((reporterCounts issues).map Prod.fst).Nodup :=
  foldl_bump_keys_nodup Issue.reporter issues [] (by simp)

/-- C8: the count-descending sort of the assignee and reporter rankings
is stable with respect to first-encounter order: if two users with equal
counts appear in that order in the counts dict (whose key order is
first-encounter order), they appear in that order in the full ranking,
and in every top-N truncation that contains the later one. -/
theorem c8_ranking_stability (issues : List Issue) (u1 u2 v1 v2 : String) (c d : ℕ)
    (ha : [(u1, c), (u2, c)] <+ assigneeCounts issues)
    (hr : [(v1, d), (v2, d)] <+ reporterCounts issues) :
    ([(u1, c), (u2, c)] <+ rankedAssignees issues
      ∧ ∀ n, (u2, c) ∈ (generate_user_task_distribution issues n).1 →
          [(u1, c), (u2, c)] <+ (generate_user_task_distribution issues n).1)
    ∧ ([(v1, d), (v2, d)] <+ rankedReporters issues
      ∧ ∀ n, (v2, d) ∈ (generate_user_task_distribution issues n).2 →
          [(v1, d), (v2, d)] <+ (generate_user_task_distribution issues n).2) :=
  ⟨stable_rank (assigneeCounts issues) u1 u2 c (assigneeCounts_keys_nodup issues) ha,
   stable_rank (reporterCounts issues) v1 v2 d (reporterCounts_keys_nodup issues) hr⟩

/-- First of two issues with distinct assignees and reporters, each
appearing once. -/
def tieIssueA : Issue :=
  { created := 0, updated := 0, status := "Open", transitions := [],
    assignee := some "alice", reporter := some "carol" }

/-- Second of two issues with distinct assignees and reporters, each
appearing once. -/
def tieIssueB : Issue :=
  { created := 0, updated := 0, status := "Open", transitions := [],
    assignee := some "bob", reporter := some "dave" }

/-- C8 witness: on two issues assigned to `alice` then `bob` (reported by
`carol` then `dave`), all with count 1, the full rankings preserve the
first-encounter order. -/
theorem c8_ranking_stability_witness :
    [("alice", 1), ("bob", 1)] <+ assigneeCounts [tieIssueA, tieIssueB]
    ∧ [("carol", 1), ("dave", 1)] <+ reporterCounts [tieIssueA, tieIssueB]
    ∧ [("alice", 1), ("bob", 1)] <+ rankedAssignees [tieIssueA, tieIssueB]
    ∧ [("carol", 1), ("dave", 1)] <+ rankedReporters [tieIssueA, tieIssueB] := by
  have hA : assigneeCounts [tieIssueA, tieIssueB] = [("alice", 1), ("bob", 1)] := by
    norm_num [assigneeCounts, List.foldl, bump, tieIssueA, tieIssueB]
    decide
  have hR : reporterCounts [tieIssueA, tieIssueB] = [("carol", 1), ("dave", 1)] := by
    norm_num [reporterCounts, List.foldl, bump, tieIssueA, tieIssueB]
    decide
  have ha : [("alice", 1), ("bob", 1)] <+ assigneeCounts [tieIssueA, tieIssueB] := by
    rw [hA]
  have hr : [("carol", 1), ("dave", 1)] <+ reporterCounts [tieIssueA, tieIssueB] := by
    rw [hR]
  have hmain := c8_ranking_stability [tieIssueA, tieIssueB] "alice" "bob" "carol" "dave" 1 1 ha hr
  exact ⟨ha, hr, hmain.1.1, hmain.2.1⟩

/-! ## C9 -/

lemma countOf_bump (m : List (String × ℕ)) (k k' : String) :
    countOf (bump m k') k = countOf m k + (if k' = k then 1 else 0) := by
  induction m with
  | nil =>
    by_cases h : k' = k <;> simp [bump, countOf, h]
  | cons p rest ih =>
    obtain ⟨a, b⟩ := p
    by_cases h1 : a = k'
    · by_cases h2 : a = k
      · simp [bump, countOf, h1, h2, h1 ▸ h2]
      · have : ¬ k' = k := by rw [← h1]; exact h2
        simp [bump, countOf, h1, h2, this]
    · by_cases h2 : a = k
      · have h3 : ¬ k' = k := fun hk => h1 (by rw [h2, hk])
        have h4 : ¬ k = k' := fun hk => h3 hk.symm
        simp [bump, countOf, h1, h2, h3, h4]
      · simp [bump, countOf, h1, h2, ih]

lemma totalCount_bump (m : List (String × ℕ)) (k : String) :
    totalCount (bump m k) = totalCount m + 1 := by
  induction m with
  | nil => simp [bump, totalCount]
  | cons p rest ih =>
    obtain ⟨a, b⟩ := p
    by_cases h : a = k <;> simp [bump, totalCount, h, ih] <;> omega

lemma priority_fold_countOf (issues : List Issue) (m : List (String × ℕ)) :
    countOf (issues.foldl (fun m i => bump m (i.priority.getD "Unknown")) m) "Unknown"
      = countOf m "Unknown"
        + issues.countP (fun i => i.priority.getD "Unknown" == "Unknown") := by
  induction issues generalizing m with
  | nil => simp
  | cons i rest ih =>
    rw [List.foldl_cons, ih, List.countP_cons, countOf_bump]
    by_cases h : i.priority.getD "Unknown" = "Unknown" <;> simp [h] <;> omega

lemma priority_fold_total (issues : List Issue) (m : List (String × ℕ)) :
    totalCount (issues.foldl (fun m i => bump m (i.priority.getD "Unknown")) m)
      = totalCount m + issues.length := by
  induction issues generalizing m with
  | nil => simp
  | cons i rest ih =>
    rw [List.foldl_cons, ih, totalCount_bump]
    simp only [List.length_cons]
    omega

/-- C9: in the priority distribution, the count under the literal label
`"Unknown"` is exactly the number of issues whose priority is missing or
literally `"Unknown"` — so every issue with a missing priority field is
counted there — and every issue of the input contributes to exactly one
counter (no issue faults or is dropped). -/
theorem c9_priority_unknown (issues : List Issue) :
    countOf (generate_priority_distribution issues) "Unknown"
      = issues.countP (fun i => i.priority == none || i.priority == some "Unknown")
    ∧ totalCount (generate_priority_distribution issues) = issues.length := by
  constructor
  · rw [generate_priority_distribution, priority_fold_countOf]
    simp only [countOf, Nat.zero_add]
    apply List.countP_congr
    intro i _
    cases hp : i.priority <;> simp [hp]
  · rw [generate_priority_distribution, priority_fold_total]
    simp [totalCount]

end JiraAnalytics
